import Mathlib

/-!
Verification development for the AndroidPermissions scanner (src/parser.py).

The Python module walks a javalang abstract syntax tree of one Java
compilation unit, maintains a qualifier path of enclosing scopes, and turns
the marker annotations RequiresPermission and UnsupportedAppUsage attached
to method and field declarations into typed records.  The definitions below
are a shallow embedding of that module: Python objects become inductive
types, mutation of the qualifier list becomes explicit state passing, and
Python exceptions (AttributeError and TypeError on unexpected payload
shapes, IndexError on popping an empty list, and the two debugger
breakpoints, which halt the scan when the program runs unattended) become
an explicit error type threaded through Except.
-/

deriving instance DecidableEq for Except

namespace AndroidPerms

/-- Errors with which the modelled scan of one unit can stop.
Source of each constructor, in src/parser.py:
lines 83-86 hit a breakpoint when a field declaration does not declare
exactly one variable (unsupportedDeclarationShape); lines 150-153 print and
hit a breakpoint when a recognized permission-enforcement call name is met
(notImplementedEnforcement); attributeError models the AttributeError or
TypeError Python raises when an annotation payload node lacks the attribute
the code reads (for example a Literal has no member attribute, lines
100-104 and 116-122); indexError models list.pop() on an empty list
(lines 185). -/
inductive ScanError where
  | unsupportedDeclarationShape
  | notImplementedEnforcement (member : String)
  | attributeError (attr : String)
  | indexError
deriving DecidableEq, Repr

/-- Value of the minTargetSdk and maxTargetSdk attributes of
UnsupportedAppUsage: Python initializes them to the integer 0
(src/parser.py line 49) and parse_deprecation overwrites them with a
string (lines 117 and 121), so the attribute is dynamically either an
int or a string. -/
inductive SdkVal where
  | intVal (n : Int)
  | strVal (s : String)
deriving DecidableEq, Repr

/-- Record class RequiresPermission, src/parser.py lines 31-38. -/
structure RequiresPermission where
  name : String
  qualifier : String
  isMethod : Bool
  permissions : List String
  needsAllOf : Bool
deriving DecidableEq, Repr

/-- Record class UnsupportedAppUsage, src/parser.py lines 48-56. -/
structure UnsupportedAppUsage where
  name : String
  qualifier : String
  isMethod : Bool
  minTargetSdk : SdkVal
  maxTargetSdk : SdkVal
  deprecationNote : String
deriving DecidableEq, Repr

/-- A record produced by the scan: the Python list holds objects of
either record class. -/
inductive ScanRecord where
  | requires (r : RequiresPermission)
  | usage (u : UnsupportedAppUsage)
deriving DecidableEq, Repr

/-- An entry of the values list of an ElementArrayValue: a qualified
constant reference (MemberReference with qualifier and member) or a
literal, which has qualifier None and no member attribute.  Annotation
arrays in Java are one-dimensional, so array values do not nest. -/
inductive AValueAtom where
  | memberRefA (qualifier member : String)
  | literalA (value : String)
deriving DecidableEq, Repr

/-- Value inside an annotation payload, as the javalang tree presents it:
a qualified constant reference (MemberReference with qualifier and member),
an array of values (ElementArrayValue with a values list), or a literal,
which has neither a member nor a values attribute. -/
inductive AValue where
  | memberRef (qualifier member : String)
  | arrayInit (values : List AValueAtom)
  | literal (value : String)
deriving DecidableEq, Repr

/-- One element of an annotation payload: either a bare value expression
or an ElementValuePair carrying a name and a value. -/
inductive AElement where
  | value (v : AValue)
  | pair (name : String) (v : AValue)
deriving DecidableEq, Repr

/-- The element attribute of a javalang Annotation node: absent (None),
a single element, or a list of elements.  Python truthiness treats None
and the empty list as falsy (src/parser.py lines 96 and 113). -/
inductive APayload where
  | noPayload
  | single (e : AElement)
  | many (es : List AElement)
deriving DecidableEq, Repr

/-- A javalang Annotation node as the scanner reads it: a name and the
element payload. -/
structure JAnnot where
  name : String
  element : APayload
deriving DecidableEq, Repr

/-- A formal parameter of a method: the code reads p.type.name and
p.name (src/parser.py line 71). -/
structure JParam where
  typeName : String
  name : String
deriving DecidableEq, Repr

/-- A return type descriptor: the code reads return_type.name and, when
present, the type names of its generic arguments
(src/parser.py lines 75-77). -/
structure RType where
  name : String
  arguments : List String
deriving DecidableEq, Repr

/-- The declaration node handed to the extractors: a MethodDeclaration or
a FieldDeclaration.  Field declarators are modelled by their variable
names (the code reads declarators[i].name, line 88) together with the
declared type name (element.type.name, line 89). -/
inductive DeclElement where
  | method (name : String) (parameters : List JParam) (returnType : Option RType)
      (documentation : Option String)
  | field (declarators : List String) (typeName : String) (documentation : Option String)
deriving DecidableEq, Repr

/-- isinstance(element, MethodDeclaration), used at src/parser.py
lines 67, 94 and 111. -/
def DeclElement.isMethod : DeclElement → Bool
  | .method .. => true
  | .field .. => false

/-- documentation attribute of the declaration node, read at
src/parser.py line 124. -/
def DeclElement.documentation : DeclElement → Option String
  | .method _ _ _ doc => doc
  | .field _ _ doc => doc

/-- A child object met by the tree walker son_of_a_class: the javalang
node kinds it dispatches on, a plain Python list, or any other object
(atom stands for objects without a children attribute, such as strings,
None or tokens; a method or field node also carries its annotations list
and its generic children list, into which the walker recurses). -/
inductive JChild where
  | package (name : String) (children : List JChild)
  | classDecl (name : String) (children : List JChild)
  | methodDecl (name : String) (parameters : List JParam) (returnType : Option RType)
      (documentation : Option String) (annotations : List JAnnot) (children : List JChild)
  | fieldDecl (declarators : List String) (typeName : String) (documentation : Option String)
      (annotations : List JAnnot) (children : List JChild)
  | methodInvocation (member : String) (children : List JChild)
  | listNode (items : List JChild)
  | atom

/-- Python list ".".join(...) and ", ".join(...). -/
def joinSep (sep : String) : List String → String
  | [] => ""
  | [s] => s
  | s :: rest => s ++ sep ++ joinSep sep rest

/-- get_name_and_qualifier, src/parser.py lines 66-89.  The breakpoint on
line 84 (reached when a field declaration declares zero variables or more
than one) halts the unattended program and is modelled as the error
unsupportedDeclarationShape. -/
def get_name_and_qualifier : DeclElement → List String → Except ScanError (String × String)
  | .method name ps rt _, qualifier =>
      let parameters := ps.map (fun p => p.typeName ++ " " ++ p.name)
      let return_type : Option String :=
        match rt with
        | none => none
        | some r =>
            if r.arguments.isEmpty then some r.name
            else some (r.name ++ "<" ++ joinSep ", " r.arguments ++ ">")
      .ok (name, joinSep "." qualifier ++ "(" ++ joinSep ", " parameters ++ ") -> " ++
            (match return_type with | some s => s | none => "void"))
  | .field declarators ty _, qualifier =>
      match declarators with
      | [d] => .ok (d, joinSep "." (qualifier ++ [d]) ++ " -> " ++ ty)
      | _ => .error .unsupportedDeclarationShape

/-- Attribute access elm.name on a payload element: an ElementValuePair
has a name, a bare value expression does not (AttributeError). -/
def AElement.getName : AElement → Except ScanError String
  | .pair n _ => .ok n
  | .value _ => .error (.attributeError "name")

/-- Attribute access elm.value on a payload element. -/
def AElement.getValue : AElement → Except ScanError AValue
  | .pair _ v => .ok v
  | .value _ => .error (.attributeError "value")

/-- Attribute access v.values: only an ElementArrayValue has it. -/
def AValue.getValues : AValue → Except ScanError (List AValueAtom)
  | .arrayInit vs => .ok vs
  | _ => .error (.attributeError "values")

/-- The expression val.qualifier + "." + val.member applied to one value
of an array, src/parser.py line 101: defined for a MemberReference; on a
literal Python raises (a Literal has qualifier None, so None + "." is a
TypeError). -/
def AValueAtom.qualifiedNameA : AValueAtom → Except ScanError String
  | .memberRefA q m => .ok (q ++ "." ++ m)
  | .literalA _ => .error (.attributeError "member")

/-- The expression v.qualifier + "." + v.member: defined for a
MemberReference; on a literal or an array node Python raises (a Literal
has qualifier None, so None + "." is a TypeError, and neither has a
member attribute). -/
def AValue.qualifiedName : AValue → Except ScanError String
  | .memberRef q m => .ok (q ++ "." ++ m)
  | _ => .error (.attributeError "member")

/-- The expression annotation.element.qualifier + "." +
annotation.element.member of src/parser.py line 104, applied to a single
(non-list) payload element. -/
def AElement.qualifiedName : AElement → Except ScanError String
  | .value v => v.qualifiedName
  | .pair _ _ => .error (.attributeError "qualifier")

/-- The loop over val in elm.value.values appending
val.qualifier + "." + val.member, src/parser.py lines 100-101. -/
def mapQualified : List AValueAtom → Except ScanError (List String)
  | [] => .ok []
  | v :: vs => do
      let q ← v.qualifiedNameA
      let rest ← mapQualified vs
      .ok (q :: rest)

/-- The loop over the elements of a list payload in parse_requirements,
src/parser.py lines 98-101: each element overwrites needsAllOf with
(elm.name == "allOf") and appends the qualified names of its value array
to permissions. -/
def reqElems : RequiresPermission → List AElement → Except ScanError RequiresPermission
  | t, [] => .ok t
  | t, elm :: rest => do
      let n ← elm.getName
      let v ← elm.getValue
      let vs ← v.getValues
      let qns ← mapQualified vs
      reqElems { t with needsAllOf := n == "allOf", permissions := t.permissions ++ qns } rest

/-- Dispatch of parse_requirements on the payload shape, src/parser.py
lines 96-104: a falsy payload (None or empty list) leaves the record at
its defaults, a list is folded by reqElems, and a single element
contributes its qualified name. -/
def reqPayload (target : RequiresPermission) : APayload → Except ScanError RequiresPermission
  | .noPayload => .ok target
  | .many [] => .ok target
  | .many (e :: es) => reqElems target (e :: es)
  | .single e => do
      let qn ← e.qualifiedName
      .ok { target with permissions := target.permissions ++ [qn] }

/-- parse_requirements, src/parser.py lines 92-106: build the record
with the resolved name and signature and the constructor defaults, then
dispatch on the payload shape. -/
def parse_requirements (element : DeclElement) (ann : JAnnot) (qualifier : List String) :
    Except ScanError RequiresPermission := do
  let nq ← get_name_and_qualifier element qualifier
  reqPayload { name := nq.1, qualifier := nq.2, isMethod := element.isMethod,
               permissions := [], needsAllOf := false } ann.element

/-- The loop over the elements of a list payload in parse_deprecation,
src/parser.py lines 115-117: an element whose name is minTargetSdk or
maxTargetSdk overwrites that attribute with the qualified name of its
value (setattr with elm.name as the attribute name). -/
def depElems : UnsupportedAppUsage → List AElement → Except ScanError UnsupportedAppUsage
  | t, [] => .ok t
  | t, elm :: rest => do
      let n ← elm.getName
      if n = "minTargetSdk" then
        let v ← elm.getValue
        let qn ← v.qualifiedName
        depElems { t with minTargetSdk := .strVal qn } rest
      else if n = "maxTargetSdk" then
        let v ← elm.getValue
        let qn ← v.qualifiedName
        depElems { t with maxTargetSdk := .strVal qn } rest
      else
        depElems t rest

/-- Dispatch of parse_deprecation on the payload shape, src/parser.py
lines 113-122. -/
def depPayload (target : UnsupportedAppUsage) : APayload → Except ScanError UnsupportedAppUsage
  | .noPayload => .ok target
  | .many [] => .ok target
  | .many (e :: es) => depElems target (e :: es)
  | .single e => do
      let n ← e.getName
      if n = "minTargetSdk" then
        let v ← e.getValue
        let qn ← v.qualifiedName
        .ok { target with minTargetSdk := .strVal qn }
      else if n = "maxTargetSdk" then
        let v ← e.getValue
        let qn ← v.qualifiedName
        .ok { target with maxTargetSdk := .strVal qn }
      else
        .ok target

/-- Python whitespace characters accepted by str.strip(). -/
def pyIsSpace (c : Char) : Bool :=
  c = ' ' || c = '\t' || c = '\n' || c = '\r' || c = '\x0b' || c = '\x0c'

/-- str.strip() on a character list. -/
def trimChars (l : List Char) : List Char :=
  ((l.dropWhile pyIsSpace).reverse.dropWhile pyIsSpace).reverse

/-- x.replace("*", "").replace("/", "").strip() of src/parser.py
line 127: remove every asterisk, then every slash, anywhere in the line,
then strip surrounding whitespace. -/
def cleanLineChars (l : List Char) : List Char :=
  trimChars ((l.filter (fun c => c ≠ '*')).filter (fun c => c ≠ '/'))

/-- Python "sub".isPrefixOf-style check on character lists. -/
def prefixChars : List Char → List Char → Bool
  | [], _ => true
  | _ :: _, [] => false
  | a :: as, b :: bs => a == b && prefixChars as bs

/-- str.find on character lists: index of the first occurrence of sub,
none when absent (Python returns -1 then). -/
def pyFindChars (sub : List Char) : List Char → Option Nat
  | [] => if prefixChars sub [] then some 0 else none
  | c :: rest =>
      if prefixChars sub (c :: rest) then some 0
      else (pyFindChars sub rest).map (· + 1)

/-- str.split("\n") on character lists. -/
def splitOnChar (ch : Char) : List Char → List (List Char)
  | [] => [[]]
  | c :: rest =>
      let r := splitOnChar ch rest
      if c = ch then [] :: r
      else
        match r with
        | [] => [[c]]
        | h :: t => (c :: h) :: t

/-- Concatenation of a list of lists ("".join of the cleaned lines). -/
def concatAll {α : Type} : List (List α) → List α
  | [] => []
  | l :: ls => l ++ concatAll ls

/-- The deprecation note mined from the documentation comment,
src/parser.py lines 124-129: when the documentation is present and
nonempty and "@deprecated" occurs at a strictly positive index, the text
from that index on is split into lines, each line has every asterisk and
slash removed and is stripped, and the lines are joined with no
separator; in every other case the note attribute keeps its default
empty string. -/
def deprecationNoteOf : Option String → String
  | none => ""
  | some doc =>
      if doc.data.isEmpty then ""
      else
        match pyFindChars "@deprecated".data doc.data with
        | none => ""
        | some k =>
            if 0 < k then
              String.mk (concatAll (((splitOnChar '\n' (doc.data.drop k))).map cleanLineChars))
            else ""

/-- parse_deprecation, src/parser.py lines 109-131: build the record
with the resolved name and signature and the constructor defaults,
dispatch on the payload shape, then mine the documentation comment. -/
def parse_deprecation (element : DeclElement) (ann : JAnnot) (qualifier : List String) :
    Except ScanError UnsupportedAppUsage := do
  let nq ← get_name_and_qualifier element qualifier
  let target ← depPayload { name := nq.1, qualifier := nq.2, isMethod := element.isMethod,
                            minTargetSdk := .intVal 0, maxTargetSdk := .intVal 0,
                            deprecationNote := "" } ann.element
  .ok { target with deprecationNote := deprecationNoteOf element.documentation }

/-- parse_element_annotations, src/parser.py lines 134-146: every
annotation named UnsupportedAppUsage or RequiresPermission contributes
one record, in order; other annotations are skipped. -/
def parse_element_annots (element : DeclElement) (qualifier : List String) :
    List JAnnot → Except ScanError (List ScanRecord)
  | [] => .ok []
  | ann :: rest => do
      if ann.name = "UnsupportedAppUsage" then
        let u ← parse_deprecation element ann qualifier
        let tl ← parse_element_annots element qualifier rest
        .ok (.usage u :: tl)
      else if ann.name = "RequiresPermission" then
        let r ← parse_requirements element ann qualifier
        let tl ← parse_element_annots element qualifier rest
        .ok (.requires r :: tl)
      else
        parse_element_annots element qualifier rest

/-- The fixed set of recognized permission-enforcement call names,
src/parser.py line 150. -/
def enforceNames : List String := ["enforceCallingOrSelfPermission"]

/-- parse_method_invocation, src/parser.py lines 149-155: a recognized
call name prints ENFORCING and hits a breakpoint, halting the unattended
scan (modelled as the notImplementedEnforcement error); any other call
name returns None, so nothing is appended to the results. -/
def parse_method_invocation (member : String) (_qualifier : List String) :
    Except ScanError (Option RequiresPermission) :=
  if member ∈ enforceNames then .error (.notImplementedEnforcement member)
  else .ok none

/-- qualifier.pop(), src/parser.py line 185: Python raises IndexError on
an empty list. -/
def pyPop : List String → Except ScanError (List String)
  | [] => .error .indexError
  | xs => .ok xs.dropLast

mutual

/-- Handling of one child object inside the loop of son_of_a_class,
src/parser.py lines 160-185.  The Python qualifier list is mutated in
place and, on a package declaration, rebound to a fresh one-element
list; both are modelled by threading the current list through and
returning the updated one.  A class or method declaration pushes its
name, and pops it again after the recursion into its children, which
runs only when the children list is nonempty (on every node javalang
produces it is). -/
def scanChild : JChild → List String → Except ScanError (List ScanRecord × List String)
  | .package name cs, _q =>
      if cs.isEmpty then .ok ([], [name]) else sonOfAClass cs [name]
  | .classDecl name cs, q =>
      if cs.isEmpty then .ok ([], q ++ [name])
      else do
        let r ← sonOfAClass cs (q ++ [name])
        let q2 ← pyPop r.2
        .ok (r.1, q2)
  | .methodDecl name ps rt doc anns cs, q => do
      let recs ← parse_element_annots (.method name ps rt doc) (q ++ [name]) anns
      if cs.isEmpty then .ok (recs, q ++ [name])
      else do
        let r ← sonOfAClass cs (q ++ [name])
        let q2 ← pyPop r.2
        .ok (recs ++ r.1, q2)
  | .fieldDecl decls ty doc anns cs, q => do
      let recs ← parse_element_annots (.field decls ty doc) q anns
      if cs.isEmpty then .ok (recs, q)
      else do
        let r ← sonOfAClass cs q
        .ok (recs ++ r.1, r.2)
  | .methodInvocation mem cs, q => do
      let _ ← parse_method_invocation mem q
      if cs.isEmpty then .ok ([], q) else sonOfAClass cs q
  | .listNode items, q => sonOfAClass items q
  | .atom, q => .ok ([], q)

/-- son_of_a_class, src/parser.py lines 158-187: fold the children in
order, threading the qualifier list and concatenating the produced
records. -/
def sonOfAClass : List JChild → List String → Except ScanError (List ScanRecord × List String)
  | [], q => .ok ([], q)
  | c :: rest, q => do
      let r1 ← scanChild c q
      let r2 ← sonOfAClass rest r1.2
      .ok (r1.1 ++ r2.1, r2.2)

end

/-- The text pre-check of analyze, src/parser.py lines 195-196: the unit
is parsed only when its text contains one of the three marker
substrings. -/
def pyContains (content sub : String) : Bool :=
  (pyFindChars sub.data content.data).isSome

/-- The Unit Gate condition of analyze, src/parser.py lines 195-196. -/
def unitGate (content : String) : Bool :=
  pyContains content "UnsupportedAppUsage" || pyContains content "RequiresPermission" ||
    pyContains content "Manifest.permission."

/-- analyze, src/parser.py lines 190-202, on the file text plus the tree
the external javalang parser would produce for it: when the gate rejects
the text, the parser is never invoked and the empty list is returned
(the result does not depend on the tree argument). -/
def analyze (file_content : String) (tree : List JChild) : Except ScanError (List ScanRecord) :=
  if unitGate file_content then (sonOfAClass tree []).map Prod.fst
  else .ok []

/-! Helper notions used to state the claims: shape predicates on payload
elements, the last-write-wins selectors, and the substring-occurrence
relation characterizing the Unit Gate. -/

/-- True when an array entry is a qualified constant reference. -/
def AValueAtom.isMemberRefA : AValueAtom → Bool
  | .memberRefA _ _ => true
  | .literalA _ => false

/-- Qualified names of the constant references of an array, in order. -/
def qualNames (vs : List AValueAtom) : List String :=
  vs.filterMap fun v =>
    match v with
    | .memberRefA q m => some (q ++ "." ++ m)
    | .literalA _ => none

/-- Shape of a payload element the permission extractor consumes without
raising: a named element whose value is an array of qualified constants. -/
def reqElemOk : AElement → Bool
  | .pair _ (.arrayInit vs) => vs.all AValueAtom.isMemberRefA
  | _ => false

/-- Permissions contributed by one payload element of the permission
marker. -/
def elementPerms : AElement → List String
  | .pair _ (.arrayInit vs) => qualNames vs
  | _ => []

/-- Name of a payload element (empty for a bare value). -/
def AElement.nameOf : AElement → String
  | .pair n _ => n
  | .value _ => ""

/-- Last element of a list, if any. -/
def lastOf {α : Type} : List α → Option α
  | [] => none
  | [a] => some a
  | _ :: rest => lastOf rest

/-- Shape of a payload element the usage extractor consumes without
raising: bare values raise on the name access, and an element named
minTargetSdk or maxTargetSdk must carry a qualified constant value. -/
def depElemOk : AElement → Bool
  | .pair n v =>
      if n = "minTargetSdk" || n = "maxTargetSdk" then
        match v with
        | .memberRef _ _ => true
        | _ => false
      else true
  | .value _ => false

/-- The elements of a payload, a single element counting as a
one-element sequence. -/
def payloadElements : APayload → List AElement
  | .noPayload => []
  | .single e => [e]
  | .many es => es

/-- Shape of a payload element the usage extractor skips without even
reading its value: a named element whose name is neither minTargetSdk
nor maxTargetSdk (src/parser.py line 116 only touches elements with one
of the two recognized names). -/
def depSkipped : AElement → Bool
  | .pair n _ => !(n = "minTargetSdk" || n = "maxTargetSdk")
  | .value _ => false

/-- Qualified name carried by the last element named key, if any
(later elements overwrite earlier ones). -/
def lastValueFor (key : String) : List AElement → Option String
  | [] => none
  | e :: es =>
      match lastValueFor key es with
      | some s => some s
      | none =>
          match e with
          | .pair n (.memberRef q m) => if n = key then some (q ++ "." ++ m) else none
          | _ => none

/-- Modelled from the spec: the line cleaning of the Documentation Miner
as section 4.6 words it — strip comment-decoration characters (leading
asterisks and slashes) and surrounding whitespace from each line.  Used
only to compare the specified cleaning with the implemented one. -/
def specCleanLine (l : List Char) : List Char :=
  trimChars ((trimChars l).dropWhile (fun c => c = '*' || c = '/'))

/-- Modelled from the spec: the Documentation Miner as section 4.6 words
it — take the text from the first occurrence of the tag to the end, split
into lines, clean each line with specCleanLine, and join with no
separator.  Used only to compare with deprecationNoteOf. -/
def specDocNote (doc : String) : String :=
  match pyFindChars "@deprecated".data doc.data with
  | none => ""
  | some k => String.mk (concatAll (((splitOnChar '\n' (doc.data.drop k))).map specCleanLine))

/-- The text content contains sub as a contiguous substring. -/
def OccursSub (sub content : String) : Prop :=
  ∃ pre post : List Char, content.data = pre ++ (sub.data ++ post)

mutual

/-- Scope safety of one node: it is not a package declaration and every
class or method declaration in it has a nonempty children list.  On trees
produced by javalang every node children list is the nonempty list of
attribute values, and package declarations occur only at the root child
list, so every subtree below the root satisfies this predicate. -/
def scopeSafeChild : JChild → Bool
  | .package _ _ => false
  | .classDecl _ cs => !cs.isEmpty && scopeSafeList cs
  | .methodDecl _ _ _ _ _ cs => !cs.isEmpty && scopeSafeList cs
  | .fieldDecl _ _ _ _ cs => scopeSafeList cs
  | .methodInvocation _ cs => scopeSafeList cs
  | .listNode items => scopeSafeList items
  | .atom => true

/-- Scope safety of a children list. -/
def scopeSafeList : List JChild → Bool
  | [] => true
  | c :: rest => scopeSafeChild c && scopeSafeList rest

end

/-! Concrete inputs used by the counterexamples and witnesses. -/

/-- The permission marker of the spec example:
RequiresPermission(Manifest.permission.CAMERA), a single-value payload. -/
def cameraAnnot : JAnnot :=
  { name := "RequiresPermission",
    element := .single (.value (.memberRef "Manifest.permission" "CAMERA")) }

/-- The canonical unit of the spec example: package com.app, class Camera
holding one method void takePhoto() carrying the permission marker. -/
def cameraUnit : List JChild :=
  [ .package "com.app" [.atom],
    .classDecl "Camera"
      [ .methodDecl "takePhoto" [] none none [cameraAnnot] [.atom] ] ]

/-- The record the scan actually emits for the canonical unit. -/
def camRecord : RequiresPermission :=
  { name := "takePhoto", qualifier := "com.app.Camera.takePhoto() -> void",
    isMethod := true, permissions := ["Manifest.permission.CAMERA"], needsAllOf := false }

/-- A permission marker whose payload is a named element carrying a
literal value instead of a constant or an array of constants. -/
def litAnnot : JAnnot :=
  { name := "RequiresPermission", element := .many [.pair "value" (.literal "1")] }

/-- A usage-marker payload whose single named element has a name the
usage extractor does not recognize, with a literal value. -/
def trackingElems : List AElement := [.pair "trackingBug" (.literal "115609023")]

/-- A usage marker carrying only the unrecognized trackingBug element. -/
def trackingAnnot : JAnnot :=
  { name := "UnsupportedAppUsage", element := .many trackingElems }

/-- A usage marker whose maxTargetSdk element carries a literal value
instead of a qualified constant. -/
def litSdkAnnot : JAnnot :=
  { name := "UnsupportedAppUsage", element := .many [.pair "maxTargetSdk" (.literal "28")] }

/-- A method declaration node used as a concrete extraction target. -/
def mElem : DeclElement := .method "m" [] none none

/-- The allOf grouping element listing two constants. -/
def allOfElems : List AElement :=
  [.pair "allOf" (.arrayInit
    [.memberRefA "Manifest.permission" "CAMERA",
     .memberRefA "Manifest.permission" "RECORD_AUDIO"])]

/-- A permission marker using the allOf grouping element with two
constants. -/
def allOfAnnot : JAnnot :=
  { name := "RequiresPermission", element := .many allOfElems }

/-- A usage marker setting maxTargetSdk twice, to exercise the
last-write-wins overwrite. -/
def maxSdkAnnot : JAnnot :=
  { name := "UnsupportedAppUsage",
    element := .many [.pair "maxTargetSdk" (.memberRef "Build.VERSION_CODES" "P"),
                      .pair "maxTargetSdk" (.memberRef "Build.VERSION_CODES" "Q")] }

/-- A usage marker with no payload. -/
def noPayloadUsage : JAnnot := { name := "UnsupportedAppUsage", element := .noPayload }

/-- A permission marker with no payload. -/
def noPayloadRequires : JAnnot := { name := "RequiresPermission", element := .noPayload }

/-- A field whose documentation starts with the deprecation tag at
offset zero. -/
def depFieldElem : DeclElement :=
  .field ["MAX_SIZE"] "int" (some "@deprecated use getMaxSize() instead")

/-- A unit whose scan meets an annotated field and then a recognized
permission-enforcement call. -/
def enforceUnit : List JChild :=
  [ .fieldDecl ["f"] "int" none [cameraAnnot] [],
    .methodInvocation "enforceCallingOrSelfPermission" [] ]

/-- A package-free, scope-safe unit. -/
def safeUnit : List JChild :=
  [ .classDecl "Outer" [ .methodDecl "m" [] none none [] [.atom] ] ]

/-- A field whose documentation holds the deprecation tag at a positive
offset, with decoration characters and an interior slash in the note
text. -/
def depDocElem : DeclElement := .field ["g"] "int" (some "g stuff * @deprecated gone/away */")

/-- The record parse_deprecation emits for depDocElem under a
payload-free usage marker. -/
def c4rec : UnsupportedAppUsage :=
  { name := "g", qualifier := "p.C.g -> int", isMethod := false,
    minTargetSdk := .intVal 0, maxTargetSdk := .intVal 0,
    deprecationNote := "@deprecated goneaway" }

/-- The record parse_deprecation emits for depFieldElem under
maxSdkAnnot. -/
def c5rec : UnsupportedAppUsage :=
  { name := "MAX_SIZE", qualifier := "p.C.MAX_SIZE -> int", isMethod := false,
    minTargetSdk := .intVal 0, maxTargetSdk := .strVal "Build.VERSION_CODES.Q",
    deprecationNote := "" }

/-- The record parse_deprecation emits for depFieldElem under a
payload-free usage marker. -/
def c10rec : UnsupportedAppUsage :=
  { name := "MAX_SIZE", qualifier := "p.C.MAX_SIZE -> int", isMethod := false,
    minTargetSdk := .intVal 0, maxTargetSdk := .intVal 0, deprecationNote := "" }

end AndroidPerms

namespace AndroidPerms

/-! Helper lemmas. -/

/-- Computation rule of Except bind on a success. -/
@[simp] theorem exceptBindOk {ε α β : Type} (a : α) (f : α → Except ε β) :
    (Except.ok a >>= f) = f a := rfl

/-- Computation rule of Except bind on an error. -/
@[simp] theorem exceptBindErr {ε α β : Type} (e : ε) (f : α → Except ε β) :
    ((Except.error e : Except ε α) >>= f) = Except.error e := rfl

/-- Inversion of a successful Except bind. -/
theorem bindOkIff {ε α β : Type} (m : Except ε α) (f : α → Except ε β) (t : β) :
    (m >>= f) = .ok t ↔ ∃ x, m = .ok x ∧ f x = .ok t := by
  cases m with
  | error e => simp
  | ok a => simp

/-- Popping a list that ends in a pushed element returns the list
without it. -/
theorem pyPopAppend (l : List String) (a : String) : pyPop (l ++ [a]) = .ok l := by
  cases hl : l ++ [a] with
  | nil => simp at hl
  | cons x xs =>
      have hdrop : (x :: xs).dropLast = l := by
        rw [← hl, List.dropLast_concat]
      simp [pyPop, hdrop]

/-- Last element of a two-or-more element list. -/
theorem lastOf_cons_cons {α : Type} (a b : α) (l : List α) :
    lastOf (a :: b :: l) = lastOf (b :: l) := rfl

/-- A nonempty list has a last element. -/
theorem lastOf_cons_some {α : Type} : ∀ (l : List α) (a : α), ∃ b, lastOf (a :: l) = some b
  | [], a => ⟨a, rfl⟩
  | x :: xs, a => by
      obtain ⟨b, hb⟩ := lastOf_cons_some xs x
      exact ⟨b, by rw [lastOf_cons_cons, hb]⟩

/-- The value loop of the permission extractor on an array of qualified
constants returns their qualified names in order. -/
theorem mapQualified_spec : ∀ (vs : List AValueAtom), vs.all AValueAtom.isMemberRefA = true →
    mapQualified vs = .ok (qualNames vs)
  | [], _ => rfl
  | v :: vs, h => by
      rw [List.all_cons, Bool.and_eq_true] at h
      cases v with
      | memberRefA q m =>
          simp [mapQualified, AValueAtom.qualifiedNameA, mapQualified_spec vs h.2, qualNames]
      | literalA s => exact absurd h.1 (by simp [AValueAtom.isMemberRefA])

/-- Unfolding of the permission-extractor loop on a well-shaped head
element. -/
theorem reqElems_cons (t : RequiresPermission) (n : String) (vs : List AValueAtom)
    (rest : List AElement) :
    reqElems t (.pair n (.arrayInit vs) :: rest) =
      (mapQualified vs >>= fun qns =>
        reqElems { t with needsAllOf := n == "allOf",
                          permissions := t.permissions ++ qns } rest) := rfl

/-- The element loop of the permission extractor: permissions are
appended in payload order and needsAllOf is overwritten by every element,
so the last element wins. -/
theorem reqElems_spec : ∀ (es : List AElement) (t : RequiresPermission),
    es.all reqElemOk = true →
    reqElems t es = .ok { t with
      permissions := t.permissions ++ concatAll (es.map elementPerms),
      needsAllOf := match lastOf es with
        | some e => e.nameOf == "allOf"
        | none => t.needsAllOf }
  | [], t, _ => by simp [reqElems, concatAll, lastOf]
  | e :: rest, t, h => by
      rw [List.all_cons, Bool.and_eq_true] at h
      obtain ⟨he, hrest⟩ := h
      cases e with
      | value v => exact absurd he (by simp [reqElemOk])
      | pair n v =>
          cases v with
          | memberRef q m => exact absurd he (by simp [reqElemOk])
          | literal s => exact absurd he (by simp [reqElemOk])
          | arrayInit vs =>
              have hvs : vs.all AValueAtom.isMemberRefA = true := he
              rw [reqElems_cons, mapQualified_spec vs hvs, exceptBindOk]
              cases rest with
              | nil => simp [reqElems, lastOf, AElement.nameOf, elementPerms, concatAll]
              | cons r rs =>
                  rw [reqElems_spec (r :: rs) _ hrest]
                  obtain ⟨b, hb⟩ := lastOf_cons_some rs r
                  simp [elementPerms, lastOf_cons_cons, hb, concatAll, List.append_assoc]

/-- Unfolding of the usage-extractor loop on a named head element. -/
theorem depElems_cons (t : UnsupportedAppUsage) (n : String) (v : AValue)
    (rest : List AElement) :
    depElems t (.pair n v :: rest) =
      (if n = "minTargetSdk" then
        v.qualifiedName >>= fun qn => depElems { t with minTargetSdk := .strVal qn } rest
      else if n = "maxTargetSdk" then
        v.qualifiedName >>= fun qn => depElems { t with maxTargetSdk := .strVal qn } rest
      else depElems t rest) := rfl

/-- The element loop of the usage extractor: the last element named
minTargetSdk (resp. maxTargetSdk) wins, and elements with other names
leave the fields untouched. -/
theorem depElems_spec : ∀ (es : List AElement) (t : UnsupportedAppUsage),
    es.all depElemOk = true →
    depElems t es = .ok { t with
      minTargetSdk := match lastValueFor "minTargetSdk" es with
        | some s => .strVal s
        | none => t.minTargetSdk,
      maxTargetSdk := match lastValueFor "maxTargetSdk" es with
        | some s => .strVal s
        | none => t.maxTargetSdk }
  | [], t, _ => by simp [depElems, lastValueFor]
  | e :: rest, t, h => by
      rw [List.all_cons, Bool.and_eq_true] at h
      obtain ⟨he, hrest⟩ := h
      cases e with
      | value v => exact absurd he (by simp [depElemOk])
      | pair n v =>
          rw [depElems_cons]
          by_cases hmin : n = "minTargetSdk"
          · subst hmin
            have hv : ∃ q m, v = .memberRef q m := by
              cases v with
              | memberRef q m => exact ⟨q, m, rfl⟩
              | arrayInit vs => exact absurd he (by simp [depElemOk])
              | literal s => exact absurd he (by simp [depElemOk])
            obtain ⟨q, m, rfl⟩ := hv
            rw [if_pos rfl, show AValue.qualifiedName (.memberRef q m) = .ok (q ++ "." ++ m)
                from rfl, exceptBindOk,
              depElems_spec rest { t with minTargetSdk := .strVal (q ++ "." ++ m) } hrest]
            cases hLmin : lastValueFor "minTargetSdk" rest <;>
              cases hLmax : lastValueFor "maxTargetSdk" rest <;>
                simp [lastValueFor, hLmin, hLmax]
          · by_cases hmax : n = "maxTargetSdk"
            · subst hmax
              have hv : ∃ q m, v = .memberRef q m := by
                cases v with
                | memberRef q m => exact ⟨q, m, rfl⟩
                | arrayInit vs => exact absurd he (by simp [depElemOk])
                | literal s => exact absurd he (by simp [depElemOk])
              obtain ⟨q, m, rfl⟩ := hv
              rw [if_neg hmin, if_pos rfl, show AValue.qualifiedName (.memberRef q m) =
                  .ok (q ++ "." ++ m) from rfl, exceptBindOk,
                depElems_spec rest { t with maxTargetSdk := .strVal (q ++ "." ++ m) } hrest]
              cases hLmin : lastValueFor "minTargetSdk" rest <;>
                cases hLmax : lastValueFor "maxTargetSdk" rest <;>
                  simp [lastValueFor, hLmin, hLmax, hmin]
            · rw [if_neg hmin, if_neg hmax, depElems_spec rest t hrest]
              cases v <;>
                cases hLmin : lastValueFor "minTargetSdk" rest <;>
                  cases hLmax : lastValueFor "maxTargetSdk" rest <;>
                    simp [lastValueFor, hLmin, hLmax, hmin, hmax]

/-- The single-element branch of the usage extractor behaves like the
loop run on a one-element list. -/
theorem depPayload_single (t : UnsupportedAppUsage) (e : AElement) :
    depPayload t (.single e) = depElems t [e] := by
  cases e with
  | value v => rfl
  | pair n v => simp [depPayload, depElems]

/-- A successful run of the usage extractor always carries the note the
Documentation Miner computes from the documentation of the declaration. -/
theorem noteOf_pipeline (elem : DeclElement) (ann : JAnnot) (q : List String)
    (t : UnsupportedAppUsage) (h : parse_deprecation elem ann q = .ok t) :
    t.deprecationNote = deprecationNoteOf elem.documentation := by
  unfold parse_deprecation at h
  rw [bindOkIff] at h
  obtain ⟨nq, _, h⟩ := h
  rw [bindOkIff] at h
  obtain ⟨t1, _, h⟩ := h
  rw [Except.ok.injEq] at h
  rw [← h]

/-- A field declaration with a number of declarators other than one makes
the signature builder fail. -/
theorem getNameFieldErr (decls : List String) (ty : String) (doc : Option String)
    (q : List String) (hshape : decls.length ≠ 1) :
    get_name_and_qualifier (.field decls ty doc) q = .error .unsupportedDeclarationShape := by
  cases decls with
  | nil => rfl
  | cons d rest =>
      cases rest with
      | nil => exact absurd rfl hshape
      | cons d2 rest2 => rfl

/-- A marker annotation on a malformed field declaration makes the
annotation loop fail with the shape error, emitting nothing. -/
theorem annotsShapeErr : ∀ (anns : List JAnnot) (decls : List String) (ty : String)
    (doc : Option String) (q : List String), decls.length ≠ 1 →
    (∃ a ∈ anns, a.name = "UnsupportedAppUsage" ∨ a.name = "RequiresPermission") →
    parse_element_annots (.field decls ty doc) q anns = .error .unsupportedDeclarationShape
  | [], _, _, _, _, _, hmark => by simp at hmark
  | a :: rest, decls, ty, doc, q, hshape, hmark => by
      by_cases hu : a.name = "UnsupportedAppUsage"
      · simp only [parse_element_annots, if_pos hu, parse_deprecation,
          getNameFieldErr decls ty doc q hshape, exceptBindErr]
      · by_cases hr : a.name = "RequiresPermission"
        · simp only [parse_element_annots, if_neg hu, if_pos hr, parse_requirements,
            getNameFieldErr decls ty doc q hshape, exceptBindErr]
        · have hmark2 : ∃ b ∈ rest, b.name = "UnsupportedAppUsage" ∨ b.name = "RequiresPermission" := by
            obtain ⟨b, hb, hn⟩ := hmark
            cases hb with
            | head => exact absurd hn (by simp [hu, hr])
            | tail _ hb2 => exact ⟨b, hb2, hn⟩
          simp only [parse_element_annots, if_neg hu, if_neg hr]
          exact annotsShapeErr rest decls ty doc q hshape hmark2

/-- Characterization of the character-list prefix check. -/
theorem prefixChars_iff : ∀ (a b : List Char), prefixChars a b = true ↔ ∃ t, a ++ t = b
  | [], b => by simp [prefixChars]
  | x :: xs, [] => by simp [prefixChars]
  | x :: xs, y :: ys => by
      rw [prefixChars, Bool.and_eq_true, beq_iff_eq, prefixChars_iff xs ys]
      constructor
      · rintro ⟨hxy, t, ht⟩
        exact ⟨t, by rw [hxy, List.cons_append, ht]⟩
      · rintro ⟨t, ht⟩
        rw [List.cons_append] at ht
        injection ht with h1 h2
        exact ⟨h1, t, h2⟩

/-- When the pattern is a prefix of the text, find returns index zero. -/
theorem prefixFindZero (sub s : List Char) (h : prefixChars sub s = true) :
    pyFindChars sub s = some 0 := by
  cases s with
  | nil => simp [pyFindChars, h]
  | cons c rest => simp [pyFindChars, h]

/-- find succeeds exactly on texts that contain the pattern as a
contiguous sublist. -/
theorem pyFind_occurs : ∀ (sub s : List Char),
    (pyFindChars sub s).isSome = true ↔ ∃ pre post, s = pre ++ (sub ++ post)
  | sub, [] => by
      cases sub with
      | nil => exact ⟨fun _ => ⟨[], [], rfl⟩, fun _ => rfl⟩
      | cons x xs =>
          constructor
          · intro hs
            simp [pyFindChars, prefixChars] at hs
          · rintro ⟨pre, post, hsplit⟩
            cases pre <;> exact List.noConfusion hsplit
  | sub, c :: rest => by
      by_cases hp : prefixChars sub (c :: rest)
      · simp only [pyFindChars, if_pos hp, Option.isSome_some, true_iff]
        obtain ⟨t, ht⟩ := (prefixChars_iff sub (c :: rest)).1 hp
        exact ⟨[], t, by simp [ht]⟩
      · simp only [pyFindChars, if_neg hp]
        cases hfind : pyFindChars sub rest with
        | some k =>
            simp only [Option.map_some', Option.isSome_some, true_iff]
            have hrest := (pyFind_occurs sub rest).1 (by rw [hfind]; rfl)
            obtain ⟨pre, post, hsplit⟩ := hrest
            exact ⟨c :: pre, post, by rw [hsplit]; rfl⟩
        | none =>
            simp only [Option.map_none', Option.isSome_none]
            constructor
            · intro h
              exact absurd h (by simp)
            · rintro ⟨pre, post, hsplit⟩
              exfalso
              cases pre with
              | nil =>
                  apply hp
                  apply (prefixChars_iff _ _).2
                  simp only [List.nil_append] at hsplit
                  exact ⟨post, hsplit.symm⟩
              | cons a pre2 =>
                  rw [List.cons_append] at hsplit
                  injection hsplit with h1 h2
                  have hnone := (pyFind_occurs sub rest).2 ⟨pre2, post, h2⟩
                  rw [hfind] at hnone
                  exact Bool.noConfusion hnone

/-- Second component of a successful pair result. -/
theorem okPairSnd {r : List ScanRecord × List String} {a : List ScanRecord} {b : List String}
    (h : (Except.ok (a, b) : Except ScanError (List ScanRecord × List String)) = .ok r) :
    r.2 = b := by
  rw [Except.ok.injEq] at h
  rw [← h]

mutual

/-- On a scope-safe node, a successful visit returns the qualifier path
it was given: the push performed for a class or method declaration is
always popped again. -/
theorem balChild : ∀ (c : JChild) (q : List String) (r : List ScanRecord × List String),
    scopeSafeChild c = true → scanChild c q = .ok r → r.2 = q
  | .package _ _, _, _, hsafe, _ => by
      exact absurd hsafe (by simp [scopeSafeChild])
  | .classDecl name cs, q, r, hsafe, h => by
      rw [scopeSafeChild, Bool.and_eq_true, Bool.not_eq_true'] at hsafe
      obtain ⟨hne, hsl⟩ := hsafe
      simp only [scanChild] at h
      rw [if_neg (by simp [hne])] at h
      rw [bindOkIff] at h
      obtain ⟨r1, hson, h⟩ := h
      rw [bindOkIff] at h
      obtain ⟨q2, hpop, h⟩ := h
      have hq1 : r1.2 = q ++ [name] := balList cs (q ++ [name]) r1 hsl hson
      rw [hq1, pyPopAppend] at hpop
      rw [Except.ok.injEq] at hpop
      exact (okPairSnd h).trans hpop.symm
  | .methodDecl name ps rt doc anns cs, q, r, hsafe, h => by
      rw [scopeSafeChild, Bool.and_eq_true, Bool.not_eq_true'] at hsafe
      obtain ⟨hne, hsl⟩ := hsafe
      simp only [scanChild] at h
      rw [bindOkIff] at h
      obtain ⟨recs, _, h⟩ := h
      rw [if_neg (by simp [hne])] at h
      rw [bindOkIff] at h
      obtain ⟨r1, hson, h⟩ := h
      rw [bindOkIff] at h
      obtain ⟨q2, hpop, h⟩ := h
      have hq1 : r1.2 = q ++ [name] := balList cs (q ++ [name]) r1 hsl hson
      rw [hq1, pyPopAppend] at hpop
      rw [Except.ok.injEq] at hpop
      exact (okPairSnd h).trans hpop.symm
  | .fieldDecl decls ty doc anns cs, q, r, hsafe, h => by
      rw [scopeSafeChild] at hsafe
      simp only [scanChild] at h
      rw [bindOkIff] at h
      obtain ⟨recs, _, h⟩ := h
      by_cases hcs : cs.isEmpty = true
      · rw [if_pos hcs] at h
        exact okPairSnd h
      · rw [if_neg hcs] at h
        rw [bindOkIff] at h
        obtain ⟨r1, hson, h⟩ := h
        have hq1 : r1.2 = q := balList cs q r1 hsafe hson
        exact (okPairSnd h).trans hq1
  | .methodInvocation mem cs, q, r, hsafe, h => by
      rw [scopeSafeChild] at hsafe
      simp only [scanChild] at h
      rw [bindOkIff] at h
      obtain ⟨x, _, h⟩ := h
      by_cases hcs : cs.isEmpty = true
      · rw [if_pos hcs] at h
        exact okPairSnd h
      · rw [if_neg hcs] at h
        exact balList cs q r hsafe h
  | .listNode items, q, r, hsafe, h => by
      rw [scopeSafeChild] at hsafe
      simp only [scanChild] at h
      exact balList items q r hsafe h
  | .atom, q, r, _, h => by
      simp only [scanChild] at h
      exact okPairSnd h

/-- On a scope-safe children list, a successful scan returns the
qualifier path it was given. -/
theorem balList : ∀ (cs : List JChild) (q : List String) (r : List ScanRecord × List String),
    scopeSafeList cs = true → sonOfAClass cs q = .ok r → r.2 = q
  | [], q, r, _, h => by
      simp only [sonOfAClass] at h
      exact okPairSnd h
  | c :: rest, q, r, hsafe, h => by
      rw [scopeSafeList, Bool.and_eq_true] at hsafe
      obtain ⟨hc, hrest⟩ := hsafe
      simp only [sonOfAClass] at h
      rw [bindOkIff] at h
      obtain ⟨r1, hchild, h⟩ := h
      rw [bindOkIff] at h
      obtain ⟨r2, hson, h⟩ := h
      have h1 : r1.2 = q := balChild c q r1 hc hchild
      have h2 : r2.2 = r1.2 := balList rest r1.2 r2 hrest hson
      exact (okPairSnd h).trans (h2.trans h1)

end

/-- The usage-extractor payload dispatch equals the element loop run on
the payload elements, a single element counting as a one-element list. -/
theorem depPayload_elems (t : UnsupportedAppUsage) (p : APayload) :
    depPayload t p = depElems t (payloadElements p) := by
  cases p with
  | noPayload => rfl
  | single e => exact depPayload_single t e
  | many es =>
      cases es with
      | nil => rfl
      | cons e es2 => rfl

/-- Unfolding of the permission-extractor dispatch on a nonempty list
payload. -/
theorem reqPayload_many (t : RequiresPermission) (e : AElement) (es : List AElement) :
    reqPayload t (.many (e :: es)) = reqElems t (e :: es) := rfl

/-- Elements of a list on which all holds satisfy the predicate. -/
theorem allMem {α : Type} (p : α → Bool) : ∀ (l : List α), l.all p = true → ∀ e ∈ l, p e = true
  | [], _, e, he => absurd he (List.not_mem_nil e)
  | x :: xs, h, e, he => by
      rw [List.all_cons, Bool.and_eq_true] at h
      cases he with
      | head => exact h.1
      | tail _ htail => exact allMem p xs h.2 e htail

/-- all holds on a list whose elements all satisfy the predicate. -/
theorem memAll {α : Type} (p : α → Bool) : ∀ (l : List α), (∀ e ∈ l, p e = true) → l.all p = true
  | [], _ => rfl
  | x :: xs, h => by
      rw [List.all_cons, Bool.and_eq_true]
      exact ⟨h x (List.mem_cons_self x xs),
        memAll p xs fun e he => h e (List.mem_cons_of_mem x he)⟩

/-- A payload list none of whose elements is named key contributes no
value for key. -/
theorem lastValueFor_of_not_named (key : String) : ∀ es : List AElement,
    (∀ e ∈ es, e.nameOf ≠ key) → lastValueFor key es = none
  | [], _ => rfl
  | e :: es, h => by
      have hrest := lastValueFor_of_not_named key es fun e2 he2 => h e2 (List.mem_cons_of_mem e he2)
      have hn : e.nameOf ≠ key := h e (List.mem_cons_self e es)
      cases e with
      | value v => simp [lastValueFor, hrest]
      | pair n v =>
          simp only [AElement.nameOf] at hn
          cases v with
          | memberRef q m => simp [lastValueFor, hrest, hn]
          | arrayInit vs => simp [lastValueFor, hrest]
          | literal s => simp [lastValueFor, hrest]

/-- Unfolding of the Documentation Miner on a present documentation
text. -/
theorem deprecationNoteOf_some (doc : String) :
    deprecationNoteOf (some doc) =
      (if doc.data.isEmpty then ""
       else
        match pyFindChars "@deprecated".data doc.data with
        | none => ""
        | some k =>
            if 0 < k then
              String.mk (concatAll (((splitOnChar '\n' (doc.data.drop k))).map cleanLineChars))
            else "") := rfl

/-! Claim theorems. -/

/-- Claim C1, counterexample: on the canonical unit of the claim
(package com.app, class Camera, method void takePhoto() annotated with
the permission marker holding Manifest.permission.CAMERA) the scan emits
exactly one PermissionRequirement, and its qualified signature is
"com.app.Camera.takePhoto() -> void", not the claimed
"com.app.Camera() -> void": the method name is pushed on the qualifier
path before extraction, so it appears in the dotted path. -/
theorem claim1_counterexample :
    sonOfAClass cameraUnit [] = .ok ([.requires camRecord], ["com.app"]) ∧
      camRecord.qualifier ≠ "com.app.Camera() -> void" := ⟨by decide, by decide⟩

/-- Claim C1, amended: on the canonical unit the scan emits exactly one
PermissionRequirement with permissions ["Manifest.permission.CAMERA"],
needsAllOf false, and qualified signature
"com.app.Camera.takePhoto() -> void". -/
theorem claim1_amended_scan :
    sonOfAClass cameraUnit [] =
      .ok ([.requires { name := "takePhoto",
                        qualifier := "com.app.Camera.takePhoto() -> void",
                        isMethod := true,
                        permissions := ["Manifest.permission.CAMERA"],
                        needsAllOf := false }],
        ["com.app"]) := by decide

/-- Claim C2: on a permission marker whose payload is a sequence of named
elements each carrying an array of qualified constants, the extractor
emits one record whose permissions list the constants in payload order
and whose needsAllOf equals whether the last element processed is named
allOf (case sensitively, last write wins). -/
theorem claim2_list_payload (elem : DeclElement) (ann : JAnnot) (q : List String)
    (nq : String × String) (es : List AElement)
    (hnq : get_name_and_qualifier elem q = .ok nq)
    (hel : ann.element = .many es)
    (hshape : es.all reqElemOk = true) :
    ∃ t, parse_requirements elem ann q = .ok t ∧
      t.permissions = concatAll (es.map elementPerms) ∧
      t.needsAllOf = (match lastOf es with
        | some e => e.nameOf == "allOf"
        | none => false) := by
  unfold parse_requirements
  rw [hnq, exceptBindOk, hel]
  cases es with
  | nil =>
      exact ⟨{ name := nq.1, qualifier := nq.2, isMethod := elem.isMethod,
               permissions := [], needsAllOf := false }, rfl, rfl, rfl⟩
  | cons e es2 =>
      rw [reqPayload_many, reqElems_spec (e :: es2) _ hshape]
      obtain ⟨b, hb⟩ := lastOf_cons_some es2 e
      exact ⟨_, rfl, by simp, by simp [hb]⟩

/-- Claim C2, witness: the allOf grouping element listing two constants
yields needsAllOf true and both constants in listed order. -/
theorem claim2_witness :
    (allOfElems.all reqElemOk = true) ∧
      ∃ t, parse_requirements mElem allOfAnnot ["com.app", "Camera", "m"] = .ok t ∧
        t.permissions = concatAll (allOfElems.map elementPerms) ∧
        t.needsAllOf = (match lastOf allOfElems with
          | some e => e.nameOf == "allOf"
          | none => false) :=
  ⟨by decide, claim2_list_payload mElem allOfAnnot ["com.app", "Camera", "m"]
      ("m", "com.app.Camera.m() -> void") allOfElems (by decide) rfl (by decide)⟩

/-- Claim C3: a field declaration with zero declarators or more than one,
carrying a marker annotation, makes the scan of that declaration stop
with the UnsupportedDeclarationShape condition (the breakpoint of
src/parser.py line 84) and emit no record. -/
theorem claim3_unsupported_shape (decls : List String) (ty : String) (doc : Option String)
    (anns : List JAnnot) (cs : List JChild) (q : List String)
    (hshape : decls.length ≠ 1)
    (hmark : ∃ a ∈ anns, a.name = "UnsupportedAppUsage" ∨ a.name = "RequiresPermission") :
    scanChild (.fieldDecl decls ty doc anns cs) q = .error .unsupportedDeclarationShape := by
  simp only [scanChild]
  rw [annotsShapeErr anns decls ty doc q hshape hmark, exceptBindErr]

/-- Claim C3, witness: the declaration int a, b; carrying the usage
marker stops the scan with the shape condition. -/
theorem claim3_witness :
    scanChild (.fieldDecl ["a", "b"] "int" none [noPayloadUsage] []) [] =
      .error .unsupportedDeclarationShape :=
  claim3_unsupported_shape ["a", "b"] "int" none [noPayloadUsage] [] [] (by decide)
    ⟨noPayloadUsage, by simp, Or.inl rfl⟩

/-- Claim C4, counterexample: the miner removes every asterisk and slash
anywhere in each line, not only leading decoration characters: on the
documentation text x @deprecated a/b the implemented note is
"@deprecated ab" while the cleaning the claim describes keeps the
interior slash and yields "@deprecated a/b". -/
theorem claim4_counterexample :
    deprecationNoteOf (some "x @deprecated a/b") = "@deprecated ab" ∧
      specDocNote "x @deprecated a/b" = "@deprecated a/b" ∧
      ("@deprecated ab" : String) ≠ "@deprecated a/b" := ⟨by decide, by decide, by decide⟩

/-- Claim C4, amended: a successful usage extraction always carries the
note of the Documentation Miner; when the tag is absent the note is
empty; when the tag occurs at a strictly positive index the note is the
text from the tag on, split into lines, each line with every asterisk
and slash removed and surrounding whitespace stripped, joined with no
separator; absent documentation yields the empty note and never an
error. -/
theorem claim4_amended_note :
    (∀ (elem : DeclElement) (ann : JAnnot) (q : List String) (t : UnsupportedAppUsage),
        parse_deprecation elem ann q = .ok t →
        t.deprecationNote = deprecationNoteOf elem.documentation)
    ∧ (∀ doc : String, pyFindChars "@deprecated".data doc.data = none →
        deprecationNoteOf (some doc) = "")
    ∧ (∀ (doc : String) (k : Nat), pyFindChars "@deprecated".data doc.data = some k → 0 < k →
        deprecationNoteOf (some doc) =
          String.mk (concatAll (((splitOnChar '\n' (doc.data.drop k))).map cleanLineChars)))
    ∧ deprecationNoteOf none = "" := by
  refine ⟨noteOf_pipeline, ?_, ?_, rfl⟩
  · intro doc hfind
    rw [deprecationNoteOf_some]
    by_cases hd : doc.data.isEmpty
    · rw [if_pos hd]
    · rw [if_neg hd, hfind]
  · intro doc k hfind hk
    have hd : doc.data.isEmpty = false := by
      cases hdata : doc.data with
      | nil => rw [hdata] at hfind; simp [pyFindChars, prefixChars] at hfind
      | cons c rest => rfl
    rw [deprecationNoteOf_some, if_neg (by simp [hd]), hfind]
    simp [hk]

/-- Claim C4, witness: a documentation comment with decoration and an
interior slash, mined through the full extractor. -/
theorem claim4_witness :
    parse_deprecation depDocElem noPayloadUsage ["p", "C"] = .ok c4rec ∧
      c4rec.deprecationNote = deprecationNoteOf depDocElem.documentation :=
  ⟨by decide, claim4_amended_note.1 depDocElem noPayloadUsage ["p", "C"] c4rec (by decide)⟩

/-- Claim C5, counterexample: a minTargetSdk or maxTargetSdk attribute no
payload element sets is not the empty string: it keeps the integer
default 0 of the record constructor (src/parser.py line 49). -/
theorem claim5_counterexample :
    parse_deprecation depFieldElem maxSdkAnnot ["p", "C"] = .ok c5rec ∧
      c5rec.minTargetSdk ≠ SdkVal.strVal "" := ⟨by decide, by decide⟩

/-- Claim C5, amended: minTargetSdk (resp. maxTargetSdk) equals the
qualified constant of the last payload element named with that key, a
single-value payload counting as one element and later elements
overwriting earlier ones; an attribute no element sets keeps the integer
default 0. -/
theorem claim5_amended_sdk (elem : DeclElement) (ann : JAnnot) (q : List String)
    (nq : String × String) (hnq : get_name_and_qualifier elem q = .ok nq)
    (hshape : (payloadElements ann.element).all depElemOk = true) :
    ∃ t, parse_deprecation elem ann q = .ok t ∧
      t.minTargetSdk = (match lastValueFor "minTargetSdk" (payloadElements ann.element) with
        | some s => SdkVal.strVal s
        | none => SdkVal.intVal 0) ∧
      t.maxTargetSdk = (match lastValueFor "maxTargetSdk" (payloadElements ann.element) with
        | some s => SdkVal.strVal s
        | none => SdkVal.intVal 0) := by
  unfold parse_deprecation
  rw [hnq, exceptBindOk, depPayload_elems, depElems_spec (payloadElements ann.element) _ hshape,
    exceptBindOk]
  exact ⟨_, rfl, rfl, rfl⟩

/-- Claim C5, witness: two elements both named maxTargetSdk, the later
one winning, with minTargetSdk left at the integer default. -/
theorem claim5_witness :
    ((payloadElements maxSdkAnnot.element).all depElemOk = true) ∧
      ∃ t, parse_deprecation mElem maxSdkAnnot ["p"] = .ok t ∧
        t.minTargetSdk = (match lastValueFor "minTargetSdk" (payloadElements maxSdkAnnot.element) with
          | some s => SdkVal.strVal s
          | none => SdkVal.intVal 0) ∧
        t.maxTargetSdk = (match lastValueFor "maxTargetSdk" (payloadElements maxSdkAnnot.element) with
          | some s => SdkVal.strVal s
          | none => SdkVal.intVal 0) :=
  ⟨by decide, claim5_amended_sdk mElem maxSdkAnnot ["p"] ("m", "p() -> void")
      (by decide) (by decide)⟩

/-- Claim C6, counterexample: a named payload element carrying a literal
value makes the permission extraction fail with an attribute-access
error (the Python AttributeError of elm.value.values on a Literal node),
rather than degrading silently to a default record. -/
theorem claim6_counterexample :
    parse_requirements mElem litAnnot ["p", "C", "m"] = .error (.attributeError "values") := by
  decide

/-- Claim C6, amended: where silent degradation happens depends on the
extractor and on where the unrecognized shape sits.  An absent payload
(None or the empty list) degrades silently in both extractors, and the
usage extractor also silently skips every named element whose name is
neither minTargetSdk nor maxTargetSdk, whatever the shape of its value,
emitting a record with default fields.  A shape the extractor does read
through is fatal: a named element carrying a literal where the
permission extractor expects a value-array, or a literal value under a
minTargetSdk or maxTargetSdk key in the usage extractor, raises an
attribute-access error that aborts the extraction of the unit. -/
theorem claim6_amended_payload :
    (∀ (elem : DeclElement) (ann : JAnnot) (q : List String) (nq : String × String),
        get_name_and_qualifier elem q = .ok nq →
        ann.element = .noPayload ∨ ann.element = .many [] →
        parse_requirements elem ann q = .ok { name := nq.1, qualifier := nq.2,
                                              isMethod := elem.isMethod, permissions := [],
                                              needsAllOf := false } ∧
          parse_deprecation elem ann q = .ok { name := nq.1, qualifier := nq.2,
                                               isMethod := elem.isMethod,
                                               minTargetSdk := .intVal 0,
                                               maxTargetSdk := .intVal 0,
                                               deprecationNote :=
                                                 deprecationNoteOf elem.documentation })
      ∧ (∀ (elem : DeclElement) (ann : JAnnot) (q : List String) (nq : String × String)
            (es : List AElement),
          get_name_and_qualifier elem q = .ok nq →
          ann.element = .many es →
          es.all depSkipped = true →
          parse_deprecation elem ann q = .ok { name := nq.1, qualifier := nq.2,
                                               isMethod := elem.isMethod,
                                               minTargetSdk := .intVal 0,
                                               maxTargetSdk := .intVal 0,
                                               deprecationNote :=
                                                 deprecationNoteOf elem.documentation })
      ∧ parse_requirements mElem litAnnot ["p", "C", "m"] = .error (.attributeError "values")
      ∧ parse_deprecation mElem litSdkAnnot ["p"] = .error (.attributeError "member") := by
  refine ⟨?_, ?_, by decide, by decide⟩
  · intro elem ann q nq hnq hel
    constructor
    · unfold parse_requirements
      rw [hnq, exceptBindOk]
      cases hel with
      | inl h => rw [h]; rfl
      | inr h => rw [h]; rfl
    · unfold parse_deprecation
      rw [hnq, exceptBindOk]
      cases hel with
      | inl h => rw [h]; rfl
      | inr h => rw [h]; rfl
  · intro elem ann q nq es hnq hel hskip
    have hmem : ∀ e ∈ es, depSkipped e = true := allMem depSkipped es hskip
    have hall : es.all depElemOk = true := by
      apply memAll
      intro e he
      have hsk := hmem e he
      cases e with
      | value v => simp [depSkipped] at hsk
      | pair n v =>
          simp [depSkipped] at hsk
          simp [depElemOk, hsk.1, hsk.2]
    have hminN : lastValueFor "minTargetSdk" es = none := by
      apply lastValueFor_of_not_named
      intro e he
      have hsk := hmem e he
      cases e with
      | value v => simp [depSkipped] at hsk
      | pair n v =>
          simp [depSkipped] at hsk
          simpa [AElement.nameOf] using hsk.1
    have hmaxN : lastValueFor "maxTargetSdk" es = none := by
      apply lastValueFor_of_not_named
      intro e he
      have hsk := hmem e he
      cases e with
      | value v => simp [depSkipped] at hsk
      | pair n v =>
          simp [depSkipped] at hsk
          simpa [AElement.nameOf] using hsk.2
    unfold parse_deprecation
    rw [hnq, exceptBindOk, hel, depPayload_elems]
    simp only [payloadElements]
    rw [depElems_spec es _ hall, exceptBindOk, hminN, hmaxN]

/-- Claim C6, witness: a marker with no payload leaves both records at
their defaults, and a usage marker whose only element is the
unrecognized literal-valued trackingBug succeeds with a default
record. -/
theorem claim6_witness :
    (parse_requirements mElem noPayloadRequires ["p"] = .ok { name := "m",
                                                              qualifier := "p() -> void",
                                                              isMethod := true,
                                                              permissions := [],
                                                              needsAllOf := false } ∧
      parse_deprecation mElem noPayloadRequires ["p"] = .ok { name := "m",
                                                              qualifier := "p() -> void",
                                                              isMethod := true,
                                                              minTargetSdk := .intVal 0,
                                                              maxTargetSdk := .intVal 0,
                                                              deprecationNote :=
                                                                deprecationNoteOf
                                                                  mElem.documentation }) ∧
      parse_deprecation mElem trackingAnnot ["p"] = .ok { name := "m",
                                                          qualifier := "p() -> void",
                                                          isMethod := true,
                                                          minTargetSdk := .intVal 0,
                                                          maxTargetSdk := .intVal 0,
                                                          deprecationNote :=
                                                            deprecationNoteOf
                                                              mElem.documentation } :=
  ⟨claim6_amended_payload.1 mElem noPayloadRequires ["p"] ("m", "p() -> void")
      (by decide) (Or.inl rfl),
    claim6_amended_payload.2.1 mElem trackingAnnot ["p"] ("m", "p() -> void") trackingElems
      (by decide) rfl (by decide)⟩

/-- Claim C7, counterexample: a package declaration replaces the
qualifier path with its single segment, so after scanning a unit whose
tree holds a package declaration the path length is one, not the zero it
started from. -/
theorem claim7_counterexample :
    sonOfAClass [JChild.package "com.app" [JChild.atom]] [] = .ok ([], ["com.app"]) ∧
      (["com.app"] : List String).length ≠ ([] : List String).length := ⟨by decide, by decide⟩

/-- Claim C7, amended: on every scope-safe subtree — one with no package
declaration, in which every class and method node has a nonempty
children list, as javalang guarantees below the root — a successful
visit returns the qualifier path unchanged, both for a single node
subtree and for a children list. -/
theorem claim7_amended_balance :
    (∀ (c : JChild) (q : List String) (r : List ScanRecord × List String),
        scopeSafeChild c = true → scanChild c q = .ok r → r.2 = q)
    ∧ (∀ (cs : List JChild) (q : List String) (r : List ScanRecord × List String),
        scopeSafeList cs = true → sonOfAClass cs q = .ok r → r.2 = q) :=
  ⟨balChild, balList⟩

/-- Claim C7, witness: a nested class and method subtree leaves the path
exactly as it was. -/
theorem claim7_witness :
    scopeSafeList safeUnit = true ∧
      ∃ r, sonOfAClass safeUnit ["seed"] = .ok r ∧ r.2 = ["seed"] :=
  ⟨by decide, ⟨([], ["seed"]), by decide,
    claim7_amended_balance.2 safeUnit ["seed"] ([], ["seed"]) (by decide) (by decide)⟩⟩

/-- Claim C8: the Unit Gate admits a unit exactly when its text contains
one of the three fixed marker substrings, and a rejected unit yields the
empty result list whatever tree the external parser would have produced
(the parser is never invoked). -/
theorem claim8_unit_gate (content : String) (tree : List JChild) :
    (unitGate content = true ↔
      (OccursSub "UnsupportedAppUsage" content ∨ OccursSub "RequiresPermission" content ∨
        OccursSub "Manifest.permission." content))
    ∧ (unitGate content = false → analyze content tree = .ok []) := by
  constructor
  · simp only [unitGate, pyContains, Bool.or_eq_true, OccursSub]
    rw [pyFind_occurs, pyFind_occurs, pyFind_occurs, or_assoc]
  · intro hgate
    unfold analyze
    rw [if_neg (by simp [hgate])]

/-- Claim C8, witness: a marker-free text is rejected and yields the
empty result, independently of the tree. -/
theorem claim8_witness :
    analyze "class Foo extends Object" [JChild.atom] = .ok [] :=
  (claim8_unit_gate "class Foo extends Object" [JChild.atom]).2 (by decide)

/-- Claim C9, counterexample: a recognized permission-enforcement call
halts the whole unit scan with the NotImplemented condition — records
already collected from earlier siblings are lost, so the condition is
surfaced by stopping the scan, not by continuing past the node. -/
theorem claim9_counterexample :
    sonOfAClass enforceUnit [] =
      .error (.notImplementedEnforcement "enforceCallingOrSelfPermission") := by decide

/-- Claim C9, amended: a call expression invoking a name of the fixed
recognized set signals the explicit NotImplemented condition and stops
the unit scan there; an unrecognized call name produces no record and no
condition, and scanning proceeds into the node children. -/
theorem claim9_amended_stub :
    (∀ (mem : String) (q : List String), mem ∈ enforceNames →
        parse_method_invocation mem q = .error (.notImplementedEnforcement mem))
    ∧ (∀ (mem : String) (q : List String), mem ∉ enforceNames →
        parse_method_invocation mem q = .ok none)
    ∧ (∀ (mem : String) (q : List String) (cs : List JChild), mem ∉ enforceNames →
        scanChild (.methodInvocation mem cs) q =
          if cs.isEmpty then .ok ([], q) else sonOfAClass cs q) := by
  refine ⟨?_, ?_, ?_⟩
  · intro mem q hmem
    unfold parse_method_invocation
    rw [if_pos hmem]
  · intro mem q hmem
    unfold parse_method_invocation
    rw [if_neg hmem]
  · intro mem q cs hmem
    simp only [scanChild]
    unfold parse_method_invocation
    rw [if_neg hmem, exceptBindOk]

/-- Claim C9, witness: the recognized name signals the condition, an
unrecognized one is silent. -/
theorem claim9_witness :
    parse_method_invocation "enforceCallingOrSelfPermission" [] =
        .error (.notImplementedEnforcement "enforceCallingOrSelfPermission") ∧
      parse_method_invocation "getSystemService" [] = .ok none :=
  ⟨claim9_amended_stub.1 "enforceCallingOrSelfPermission" [] (by simp [enforceNames]),
    claim9_amended_stub.2.1 "getSystemService" [] (by simp [enforceNames])⟩

/-- Claim C10: when the documentation text begins with the tag at offset
zero the emitted deprecation note stays empty, and a nonempty note can
only come from a first occurrence at a strictly positive offset
(src/parser.py line 126 tests find(...) > 0). -/
theorem claim10_tag_offset (elem : DeclElement) (ann : JAnnot) (q : List String)
    (t : UnsupportedAppUsage) (doc : String)
    (hdoc : elem.documentation = some doc)
    (hok : parse_deprecation elem ann q = .ok t) :
    (prefixChars "@deprecated".data doc.data = true → t.deprecationNote = "")
    ∧ (t.deprecationNote ≠ "" →
        ∃ k, pyFindChars "@deprecated".data doc.data = some k ∧ 0 < k) := by
  have hnote : t.deprecationNote = deprecationNoteOf (some doc) := by
    rw [noteOf_pipeline elem ann q t hok, hdoc]
  constructor
  · intro hpre
    rw [hnote, deprecationNoteOf_some]
    by_cases hd : doc.data.isEmpty
    · rw [if_pos hd]
    · rw [if_neg hd, prefixFindZero _ _ hpre]
      rfl
  · intro hne
    rw [hnote, deprecationNoteOf_some] at hne
    by_cases hd : doc.data.isEmpty
    · rw [if_pos hd] at hne
      exact absurd rfl hne
    · rw [if_neg hd] at hne
      cases hfind : pyFindChars "@deprecated".data doc.data with
      | none =>
          rw [hfind] at hne
          exact absurd rfl hne
      | some k =>
          rw [hfind] at hne
          by_cases hk : 0 < k
          · exact ⟨k, rfl, hk⟩
          · exfalso
            apply hne
            show (if 0 < k then
                String.mk (concatAll (((splitOnChar '\n' (doc.data.drop k))).map cleanLineChars))
              else "") = ""
            rw [if_neg hk]

/-- Claim C10, witness: a documentation text starting with the tag at
offset zero leaves the note empty. -/
theorem claim10_witness :
    prefixChars "@deprecated".data "@deprecated use getMaxSize() instead".data = true ∧
      c10rec.deprecationNote = "" :=
  ⟨by decide, (claim10_tag_offset depFieldElem noPayloadUsage ["p", "C"] c10rec
      "@deprecated use getMaxSize() instead" rfl (by decide)).1 (by decide)⟩

end AndroidPerms
